import Mathlib

/-!
Verification of the translation-caching core of the sushi-chef-engageny
repository against its specification.

Shallow embedding of:
* `src/cache.py` — class `Db`: a persistent key-value store keyed by a
  fingerprint of the text, with hit/miss counters;
* `src/translation.py` — class `CachingClient` (memoizing wrapper around a
  translator) and class `Client` (chunking front-end for the upstream
  translation API);
* `src/engageny_chef.py` — method `EngageNYChef._`, the retrying translate
  wrapper with message-length truncation.

Python strings are modelled as lists of characters (`PyStr`), so that the
slicing used by the source (`msg[:4996]`, `values[i:i+5000]`) is `List.take`
and `List.drop`.  The SHA-256 hex digest `Db._genkey` is modelled as an
abstract function `fp : PyStr → PyStr`: every theorem below holds for an
arbitrary deterministic fingerprint function.  The `shelve` store backing
`Db.db` is modelled as an association list with first-match lookup,
overwrite-in-place set, and delete semantics (deleting a missing key raises
`KeyError`, modelled with `Option`).
-/

/-- Python strings, as lists of characters. -/
abbrev PyStr := List Char

/-! ### The dict/shelve primitives backing `Db.db` -/

/-- Lookup in the store: `self.db[k]` / `k in self.db`. -/
def dbGet? {V : Type} : List (PyStr × V) → PyStr → Option V
  | [], _ => none
  | (k', v) :: rest, k => if k' = k then some v else dbGet? rest k

/-- Store assignment `self.db[k] = v`: overwrites an existing entry, else appends. -/
def dbSet {V : Type} : List (PyStr × V) → PyStr → V → List (PyStr × V)
  | [], k, v => [(k, v)]
  | (k', v') :: rest, k, v =>
    if k' = k then (k, v) :: rest else (k', v') :: dbSet rest k v

/-- Store deletion `del self.db[k]` (the caller checks presence separately). -/
def dbErase {V : Type} : List (PyStr × V) → PyStr → List (PyStr × V)
  | [], _ => []
  | (k', v') :: rest, k => if k' = k then rest else (k', v') :: dbErase rest k

theorem dbGet?_set {V : Type} (m : List (PyStr × V)) (k : PyStr) (v : V) (k₀ : PyStr) :
    dbGet? (dbSet m k v) k₀ = if k = k₀ then some v else dbGet? m k₀ := by
  induction m with
  | nil => simp [dbSet, dbGet?]
  | cons hd tl ih =>
    obtain ⟨k', v'⟩ := hd
    by_cases h : k' = k
    · subst h
      simp only [dbSet, if_pos rfl, dbGet?]
      by_cases h0 : k' = k₀ <;> simp [h0]
    · simp only [dbSet, if_neg h, dbGet?]
      by_cases h0 : k' = k₀
      · subst h0
        have : ¬ k = k' := fun hh => h hh.symm
        simp [this]
      · simp [h0, ih]

theorem dbGet?_erase_ne {V : Type} (m : List (PyStr × V)) (k k₀ : PyStr) (h : k ≠ k₀) :
    dbGet? (dbErase m k) k₀ = dbGet? m k₀ := by
  induction m with
  | nil => simp [dbErase]
  | cons hd tl ih =>
    obtain ⟨k', v'⟩ := hd
    by_cases hk : k' = k
    · subst hk
      have : ¬ k' = k₀ := fun hh => h hh
      simp [dbErase, dbGet?, this]
    · simp only [dbErase, if_neg hk, dbGet?]
      by_cases h0 : k' = k₀ <;> simp [h0, ih]

/-! ### `class Db` from `src/cache.py` -/

/-- State of a `Db` instance: the persistent store (keyed by fingerprints)
and the two in-memory counters. -/
structure Db (V : Type) where
  db : List (PyStr × V)
  hits : Nat
  misses : Nat
deriving DecidableEq

/-- Embeds `Db.__init__`: counters start at zero; the persistent store may already
hold entries from a previous process (shelve reopens the file). -/
def Db.init {V : Type} (d₀ : List (PyStr × V)) : Db V := ⟨d₀, 0, 0⟩

/-- Embeds `Db.add`: `self.db[self._genkey(key)] = data`.  `fp` embeds `_genkey`
(SHA-256 hex digest of the UTF-8 encoding), kept abstract. -/
def Db.add {V : Type} (fp : PyStr → PyStr) (s : Db V) (key : PyStr) (data : V) : Db V :=
  { s with db := dbSet s.db (fp key) data }

/-- Embeds `Db.remove`: `del self.db[self._genkey(key)]`; `none` models the
`KeyError` raised when the fingerprint is absent. -/
def Db.remove {V : Type} (fp : PyStr → PyStr) (s : Db V) (key : PyStr) : Option (Db V) :=
  if (dbGet? s.db (fp key)).isSome then
    some { s with db := dbErase s.db (fp key) }
  else none

/-- Embeds `Db.get`: on a present fingerprint increments `hits` and returns
`(True, value)`; otherwise increments `misses` and returns `(False, None)`. -/
def Db.get {V : Type} (fp : PyStr → PyStr) (s : Db V) (key : PyStr) :
    (Bool × Option V) × Db V :=
  match dbGet? s.db (fp key) with
  | some v => ((true, some v), { s with hits := s.hits + 1 })
  | none => ((false, none), { s with misses := s.misses + 1 })

/-- Embeds `Db.stats`: `dict(hits=self.hits, misses=self.misses)`. -/
def Db.stats {V : Type} (s : Db V) : Nat × Nat := (s.hits, s.misses)

/-- Method names defined on `class Db` in `src/cache.py`. -/
def Db.methodNames : List String :=
  ["__init__", "_genkey", "add", "remove", "get", "stats", "close"]

/-! ### Operation sequences on a `Db` instance -/

/-- One call on a `Db` instance (`close` excluded: the source declares use
after `close` undefined). -/
inductive DbOp (V : Type) where
  | add (key : PyStr) (data : V)
  | remove (key : PyStr)
  | get (key : PyStr)
  | stats
deriving DecidableEq

/-- Whether an operation writes or deletes the store slot `fk`. -/
def DbOp.touches {V : Type} (fp : PyStr → PyStr) (fk : PyStr) : DbOp V → Bool
  | .add k' _ => decide (fp k' = fk)
  | .remove k' => decide (fp k' = fk)
  | _ => false

/-- Whether an operation is a `get`. -/
def DbOp.isGet {V : Type} : DbOp V → Bool
  | .get _ => true
  | _ => false

/-- Number of `get` calls in a sequence of operations. -/
def DbOp.countGets {V : Type} (ops : List (DbOp V)) : Nat :=
  (ops.filter DbOp.isGet).length

/-- Run one operation; `none` models an uncaught `KeyError` from `remove`. -/
def Db.runOp {V : Type} (fp : PyStr → PyStr) (s : Db V) : DbOp V → Option (Db V)
  | .add k v => some (Db.add fp s k v)
  | .remove k => Db.remove fp s k
  | .get k => some (Db.get fp s k).2
  | .stats => some s

/-- Run a sequence of operations, stopping at the first uncaught error. -/
def Db.runOps {V : Type} (fp : PyStr → PyStr) : List (DbOp V) → Db V → Option (Db V)
  | [], s => some s
  | op :: ops, s => (Db.runOp fp s op).bind (Db.runOps fp ops)

theorem db_get_db {V : Type} (fp : PyStr → PyStr) (s : Db V) (key : PyStr) :
    ((Db.get fp s key).2).db = s.db := by
  unfold Db.get
  cases dbGet? s.db (fp key) <;> rfl

theorem db_get_fst_of_lookup {V : Type} (fp : PyStr → PyStr) (s : Db V) (key : PyStr)
    (v : V) (h : dbGet? s.db (fp key) = some v) :
    (Db.get fp s key).1 = (true, some v) := by
  unfold Db.get
  rw [h]

theorem db_get_fst_of_miss {V : Type} (fp : PyStr → PyStr) (s : Db V) (key : PyStr)
    (h : dbGet? s.db (fp key) = none) :
    (Db.get fp s key).1 = (false, none) := by
  unfold Db.get
  rw [h]

/-- Operations that do not touch the slot `fk` preserve its stored value. -/
theorem runOps_preserve_lookup {V : Type} (fp : PyStr → PyStr) (fk : PyStr) (v : V) :
    ∀ (ops : List (DbOp V)) (s s' : Db V),
      (∀ op ∈ ops, DbOp.touches fp fk op = false) →
      dbGet? s.db fk = some v →
      Db.runOps fp ops s = some s' →
      dbGet? s'.db fk = some v := by
  intro ops
  induction ops with
  | nil =>
    intro s s' _ hv hrun
    simp only [Db.runOps] at hrun
    cases hrun
    exact hv
  | cons op ops ih =>
    intro s s' hops hv hrun
    have hop : DbOp.touches fp fk op = false := hops op (List.mem_cons_self op ops)
    have hops' : ∀ o ∈ ops, DbOp.touches fp fk o = false :=
      fun o ho => hops o (List.mem_cons_of_mem op ho)
    simp only [Db.runOps] at hrun
    cases op with
    | add k' v' =>
      simp only [Db.runOp, Option.bind] at hrun
      have hne : fp k' ≠ fk := by
        simpa [DbOp.touches] using hop
      apply ih _ s' hops' _ hrun
      simp only [Db.add]
      rw [dbGet?_set]
      simp [hne, hv]
    | remove k' =>
      simp only [Db.runOp, Db.remove] at hrun
      by_cases hmem : (dbGet? s.db (fp k')).isSome
      · rw [if_pos hmem] at hrun
        simp only [Option.bind] at hrun
        have hne : fp k' ≠ fk := by
          simpa [DbOp.touches] using hop
        apply ih _ s' hops' _ hrun
        simpa [dbGet?_erase_ne _ _ _ hne] using hv
      · rw [if_neg hmem] at hrun
        simp at hrun
    | get k'' =>
      simp only [Db.runOp, Option.bind] at hrun
      apply ih _ s' hops' _ hrun
      rw [db_get_db]
      exact hv
    | stats =>
      simp only [Db.runOp, Option.bind] at hrun
      exact ih s s' hops' hv hrun

/-- C5 — after `add(k, v)`, `get(k)` returns `(True, v)` as long as no later
operation writes or deletes the fingerprint slot of `k`; and `add`
unconditionally overwrites an existing entry for the same key
(last-write-wins).  The initial state `s` is arbitrary, so the first
conjunct also covers adding over pre-existing entries. -/
theorem db_add_get_lastwrite {V : Type} (fp : PyStr → PyStr) (s : Db V)
    (k : PyStr) (v : V) :
    (∀ (ops : List (DbOp V)) (s' : Db V),
       (∀ op ∈ ops, DbOp.touches fp (fp k) op = false) →
       Db.runOps fp ops (Db.add fp s k v) = some s' →
       (Db.get fp s' k).1 = (true, some v))
    ∧ (∀ v₀ : V,
       (Db.get fp (Db.add fp (Db.add fp s k v₀) k v) k).1 = (true, some v)) := by
  constructor
  · intro ops s' hops hrun
    have h0 : dbGet? (Db.add fp s k v).db (fp k) = some v := by
      simp [Db.add, dbGet?_set]
    have := runOps_preserve_lookup fp (fp k) v ops _ s' hops h0 hrun
    exact db_get_fst_of_lookup fp s' k v this
  · intro v₀
    apply db_get_fst_of_lookup
    simp [Db.add, dbGet?_set]

/-- Witness for C5 at a concrete instance: identity fingerprint, store
initially empty, intervening `get`/`add`/`stats` operations on another key. -/
theorem db_add_get_lastwrite_witness :
    (Db.get (fun t => t) (⟨[(['k'], 7), (['x'], 1)], 0, 1⟩ : Db Nat) ['k']).1
      = (true, some 7) := by
  apply (db_add_get_lastwrite (fun t => t) (Db.init []) ['k'] 7).1
    [DbOp.get ['x'], DbOp.add ['x'] 1, DbOp.stats]
  · decide
  · decide

/-- A single `get` adds exactly one to the sum of the counters. -/
theorem db_get_counter_sum {V : Type} (fp : PyStr → PyStr) (s : Db V) (key : PyStr) :
    ((Db.get fp s key).2).hits + ((Db.get fp s key).2).misses
      = s.hits + s.misses + 1 := by
  unfold Db.get
  cases dbGet? s.db (fp key) <;> simp <;> omega

/-- Running operations adds `countGets` to the sum of the counters. -/
theorem runOps_counter_sum {V : Type} (fp : PyStr → PyStr) :
    ∀ (ops : List (DbOp V)) (s s' : Db V),
      Db.runOps fp ops s = some s' →
      s'.hits + s'.misses = s.hits + s.misses + DbOp.countGets ops := by
  intro ops
  induction ops with
  | nil =>
    intro s s' hrun
    simp only [Db.runOps] at hrun
    cases hrun
    simp [DbOp.countGets]
  | cons op ops ih =>
    intro s s' hrun
    simp only [Db.runOps] at hrun
    cases op with
    | add k v =>
      simp only [Db.runOp, Option.bind] at hrun
      have := ih _ s' hrun
      simpa [Db.add, DbOp.countGets, DbOp.isGet, List.filter] using this
    | remove k =>
      simp only [Db.runOp, Db.remove] at hrun
      by_cases hmem : (dbGet? s.db (fp k)).isSome
      · rw [if_pos hmem] at hrun
        simp only [Option.bind] at hrun
        have := ih _ s' hrun
        simpa [DbOp.countGets, DbOp.isGet, List.filter] using this
      · rw [if_neg hmem] at hrun
        simp at hrun
    | get k =>
      simp only [Db.runOp, Option.bind] at hrun
      have := ih _ s' hrun
      have hsum := db_get_counter_sum fp s k
      simp only [DbOp.countGets, DbOp.isGet, List.filter, List.length_cons] at *
      omega
    | stats =>
      simp only [Db.runOp, Option.bind] at hrun
      have := ih _ s' hrun
      simpa [DbOp.countGets, DbOp.isGet, List.filter] using this

/-- C6 — on any freshly constructed `Db` instance, `hits + misses` equals the
number of `get()` calls performed; each operation leaves both counters
non-decreasing; operations other than `get` leave them unchanged; and each
`get` increments exactly one of the two. -/
theorem db_stats_accounting {V : Type} (fp : PyStr → PyStr) :
    (∀ (d₀ : List (PyStr × V)) (ops : List (DbOp V)) (s' : Db V),
       Db.runOps fp ops (Db.init d₀) = some s' →
       s'.hits + s'.misses = DbOp.countGets ops)
    ∧ (∀ (s : Db V) (op : DbOp V) (s' : Db V),
       Db.runOp fp s op = some s' → s.hits ≤ s'.hits ∧ s.misses ≤ s'.misses)
    ∧ (∀ (s : Db V) (op : DbOp V) (s' : Db V),
       DbOp.isGet op = false → Db.runOp fp s op = some s' →
       s'.hits = s.hits ∧ s'.misses = s.misses)
    ∧ (∀ (s : Db V) (key : PyStr),
       (((Db.get fp s key).2).hits = s.hits + 1 ∧ ((Db.get fp s key).2).misses = s.misses)
       ∨ (((Db.get fp s key).2).hits = s.hits ∧ ((Db.get fp s key).2).misses = s.misses + 1)) := by
  refine ⟨?_, ?_, ?_, ?_⟩
  · intro d₀ ops s' hrun
    have := runOps_counter_sum fp ops (Db.init d₀) s' hrun
    simpa [Db.init] using this
  · intro s op s' hrun
    cases op with
    | add k v =>
      simp only [Db.runOp] at hrun
      cases hrun
      simp [Db.add]
    | remove k =>
      simp only [Db.runOp, Db.remove] at hrun
      by_cases hmem : (dbGet? s.db (fp k)).isSome
      · rw [if_pos hmem] at hrun
        cases hrun
        simp
      · rw [if_neg hmem] at hrun
        cases hrun
    | get k =>
      simp only [Db.runOp] at hrun
      cases hrun
      unfold Db.get
      cases dbGet? s.db (fp k) <;> simp
    | stats =>
      simp only [Db.runOp] at hrun
      cases hrun
      simp
  · intro s op s' hget hrun
    cases op with
    | add k v =>
      simp only [Db.runOp] at hrun
      cases hrun
      simp [Db.add]
    | remove k =>
      simp only [Db.runOp, Db.remove] at hrun
      by_cases hmem : (dbGet? s.db (fp k)).isSome
      · rw [if_pos hmem] at hrun
        cases hrun
        simp
      · rw [if_neg hmem] at hrun
        cases hrun
    | get k => simp [DbOp.isGet] at hget
    | stats =>
      simp only [Db.runOp] at hrun
      cases hrun
      simp
  · intro s key
    unfold Db.get
    cases dbGet? s.db (fp key) <;> simp

/-- Witness for C6 at a concrete instance: a miss, an add, then a hit give
`hits + misses = 2 = ` number of `get` calls. -/
theorem db_stats_accounting_witness :
    ((⟨[(['a'], 5)], 1, 1⟩ : Db Nat)).hits + ((⟨[(['a'], 5)], 1, 1⟩ : Db Nat)).misses
      = DbOp.countGets [DbOp.get ['a'], DbOp.add ['a'] 5, DbOp.get ['a']] :=
  (db_stats_accounting (fun t => t)).1 []
    [DbOp.get ['a'], DbOp.add ['a'] 5, DbOp.get ['a']]
    (⟨[(['a'], 5)], 1, 1⟩ : Db Nat) (by decide)

/-! ### `class CachingClient` from `src/translation.py` -/

/-- Method names defined on `class CachingClient` in `src/translation.py`. -/
def CachingClient.methodNames : List String := ["__init__", "translate", "close"]

/-- Result of one `CachingClient.translate` call: the returned value (or the
propagated exception `e`), the cache state afterwards, the arguments of the
upstream `translator.translate` invocations made during the call, and the
arguments of those invocations that returned successfully. -/
structure CCResult (E V : Type) where
  result : Except E (Option V)
  cache : Db V
  calls : List PyStr
  okCalls : List PyStr

/-- Embeds `CachingClient.translate`: consult the cache; on a hit return the cached
value; on a miss call the wrapped translator `tr`, store a successful result
and return it, and propagate a raised exception unchanged without storing
anything.  The wrapped `Translator.translate` is embedded as
`tr : PyStr → Except E V` (`.error e` models a raised exception `e`). -/
def CachingClient.translate {E V : Type} (fp : PyStr → PyStr) (tr : PyStr → Except E V)
    (s : Db V) (values : PyStr) : CCResult E V :=
  match Db.get fp s values with
  | ((true, translation), s') => ⟨.ok translation, s', [], []⟩
  | ((false, _), s') =>
    match tr values with
    | .error e => ⟨.error e, s', [values], []⟩
    | .ok translated =>
      ⟨.ok (some translated), Db.add fp s' values translated, [values], [values]⟩

/-- Accumulated effect of a sequence of `CachingClient.translate` calls. -/
structure CCRun (V : Type) where
  cache : Db V
  calls : List PyStr
  okCalls : List PyStr
deriving DecidableEq

/-- Run `CachingClient.translate` on each text of `ts` in order, threading the
cache and accumulating the upstream-invocation logs. -/
def CachingClient.run {E V : Type} (fp : PyStr → PyStr) (tr : PyStr → Except E V) :
    List PyStr → Db V → CCRun V
  | [], s => ⟨s, [], []⟩
  | t :: ts, s =>
    let r := CachingClient.translate fp tr s t
    let rest := CachingClient.run fp tr ts r.cache
    ⟨rest.cache, r.calls ++ rest.calls, r.okCalls ++ rest.okCalls⟩

theorem cc_translate_hit {E V : Type} (fp : PyStr → PyStr) (tr : PyStr → Except E V)
    (s : Db V) (values : PyStr) (v : V) (h : dbGet? s.db (fp values) = some v) :
    CachingClient.translate fp tr s values
      = ⟨.ok (some v), { s with hits := s.hits + 1 }, [], []⟩ := by
  unfold CachingClient.translate
  have : Db.get fp s values = ((true, some v), { s with hits := s.hits + 1 }) := by
    unfold Db.get
    rw [h]
  rw [this]

theorem cc_translate_miss_err {E V : Type} (fp : PyStr → PyStr) (tr : PyStr → Except E V)
    (s : Db V) (values : PyStr) (e : E)
    (h : dbGet? s.db (fp values) = none) (he : tr values = .error e) :
    CachingClient.translate fp tr s values
      = ⟨.error e, { s with misses := s.misses + 1 }, [values], []⟩ := by
  unfold CachingClient.translate
  have : Db.get fp s values = ((false, none), { s with misses := s.misses + 1 }) := by
    unfold Db.get
    rw [h]
  rw [this, he]

theorem cc_translate_miss_ok {E V : Type} (fp : PyStr → PyStr) (tr : PyStr → Except E V)
    (s : Db V) (values : PyStr) (v : V)
    (h : dbGet? s.db (fp values) = none) (ho : tr values = .ok v) :
    CachingClient.translate fp tr s values
      = ⟨.ok (some v), Db.add fp { s with misses := s.misses + 1 } values v,
         [values], [values]⟩ := by
  unfold CachingClient.translate
  have : Db.get fp s values = ((false, none), { s with misses := s.misses + 1 }) := by
    unfold Db.get
    rw [h]
  rw [this, ho]

/-- A `translate` call never removes a fingerprint from the store. -/
theorem cc_translate_preserves_isSome {E V : Type} (fp : PyStr → PyStr)
    (tr : PyStr → Except E V) (s : Db V) (values : PyStr) (fk : PyStr)
    (h : (dbGet? s.db fk).isSome) :
    (dbGet? ((CachingClient.translate fp tr s values).cache).db fk).isSome := by
  cases hl : dbGet? s.db (fp values) with
  | some v =>
    rw [cc_translate_hit fp tr s values v hl]
    exact h
  | none =>
    cases he : tr values with
    | error e =>
      rw [cc_translate_miss_err fp tr s values e hl he]
      exact h
    | ok v =>
      rw [cc_translate_miss_ok fp tr s values v hl he]
      simp only [Db.add, dbGet?_set]
      by_cases hk : fp values = fk <;> simp [hk, h]

/-- While the fingerprint of `t` is present in the store, no later
`translate` call makes a successful upstream invocation with argument `t`. -/
theorem cc_run_okCalls_zero_of_present {E V : Type} (fp : PyStr → PyStr)
    (tr : PyStr → Except E V) (t : PyStr) :
    ∀ (ts : List PyStr) (s : Db V),
      (dbGet? s.db (fp t)).isSome →
      ((CachingClient.run fp tr ts s).okCalls).count t = 0 := by
  intro ts
  induction ts with
  | nil =>
    intro s _
    simp [CachingClient.run]
  | cons t' ts ih =>
    intro s hpres
    simp only [CachingClient.run, List.count_append]
    have hrest := ih _ (cc_translate_preserves_isSome fp tr s t' (fp t) hpres)
    cases hl : dbGet? s.db (fp t') with
    | some v =>
      rw [cc_translate_hit fp tr s t' v hl] at hrest ⊢
      simpa using hrest
    | none =>
      cases he : tr t' with
      | error e =>
        rw [cc_translate_miss_err fp tr s t' e hl he] at hrest ⊢
        simpa using hrest
      | ok v =>
        have hne : t' ≠ t := by
          intro hh
          subst hh
          rw [hl] at hpres
          simp at hpres
        rw [cc_translate_miss_ok fp tr s t' v hl he] at hrest ⊢
        simp [List.count_cons, hne, Ne.symm hne, hrest]

/-- Across any sequence of `translate` calls, each text is the argument of at
most one successful upstream invocation. -/
theorem cc_run_okCalls_le_one {E V : Type} (fp : PyStr → PyStr)
    (tr : PyStr → Except E V) (t : PyStr) :
    ∀ (ts : List PyStr) (s : Db V),
      ((CachingClient.run fp tr ts s).okCalls).count t ≤ 1 := by
  intro ts
  induction ts with
  | nil =>
    intro s
    simp [CachingClient.run]
  | cons t' ts ih =>
    intro s
    by_cases hpres : (dbGet? s.db (fp t)).isSome
    · have := cc_run_okCalls_zero_of_present fp tr t (t' :: ts) s hpres
      omega
    · simp only [CachingClient.run, List.count_append]
      cases hl : dbGet? s.db (fp t') with
      | some v =>
        rw [cc_translate_hit fp tr s t' v hl]
        simpa using ih _
      | none =>
        cases he : tr t' with
        | error e =>
          rw [cc_translate_miss_err fp tr s t' e hl he]
          simpa using ih _
        | ok v =>
          rw [cc_translate_miss_ok fp tr s t' v hl he]
          by_cases hte : t' = t
          · subst hte
            have hzero : ((CachingClient.run fp tr ts
                (Db.add fp { s with misses := s.misses + 1 } t' v)).okCalls).count t' = 0 := by
              apply cc_run_okCalls_zero_of_present
              simp [Db.add, dbGet?_set]
            simp [List.count_cons, hzero]
          · have hts : t ≠ t' := fun hh => hte hh.symm
            simp only [List.count_cons, List.count_nil]
            simp [hte, hts]
            exact ih _

/-- C4 — with the cache initially cold for `t` and a translator that succeeds
on `t`, two consecutive `CachingClient.translate(t)` calls invoke the wrapped
translator exactly once and return the same value; and over any sequence of
`translate` calls, each distinct text is the argument of at most one
successful upstream invocation. -/
theorem cachingClient_at_most_one_upstream {E V : Type} (fp : PyStr → PyStr)
    (tr : PyStr → Except E V) (s : Db V) (t : PyStr) (v : V)
    (hcold : dbGet? s.db (fp t) = none) (hok : tr t = .ok v) :
    ((CachingClient.translate fp tr s t).result = .ok (some v)
     ∧ (CachingClient.translate fp tr (CachingClient.translate fp tr s t).cache t).result
         = .ok (some v)
     ∧ ((CachingClient.translate fp tr s t).calls
         ++ (CachingClient.translate fp tr (CachingClient.translate fp tr s t).cache t).calls).length
         = 1)
    ∧ (∀ (ts : List PyStr) (s₀ : Db V),
        ((CachingClient.run fp tr ts s₀).okCalls).count t ≤ 1) := by
  constructor
  · rw [cc_translate_miss_ok fp tr s t v hcold hok]
    have hhit : dbGet? (Db.add fp { s with misses := s.misses + 1 } t v).db (fp t)
        = some v := by
      simp [Db.add, dbGet?_set]
    rw [cc_translate_hit fp tr _ t v hhit]
    exact ⟨rfl, rfl, rfl⟩
  · intro ts s₀
    exact cc_run_okCalls_le_one fp tr t ts s₀

/-- Witness for C4 with the identity fingerprint and an always-succeeding
translator on an initially empty cache. -/
theorem cachingClient_at_most_one_upstream_witness :
    ((CachingClient.translate (fun u => u) (fun u => (Except.ok u : Except Unit PyStr))
        (Db.init []) ['h']).result = .ok (some ['h']))
    ∧ (((CachingClient.run (fun u => u) (fun u => (Except.ok u : Except Unit PyStr))
        [['h'], ['h'], ['h']] (Db.init [])).okCalls).count ['h'] ≤ 1) := by
  have h := cachingClient_at_most_one_upstream (fun u => u)
    (fun u => (Except.ok u : Except Unit PyStr)) (Db.init []) ['h'] ['h'] rfl rfl
  exact ⟨h.1.1, h.2 [['h'], ['h'], ['h']] (Db.init [])⟩

/-- C7 — if the cache misses on `x` and the wrapped translator raises `e`,
then `CachingClient.translate` propagates exactly `e`, makes exactly one
upstream invocation (no retry), and leaves the cache unpopulated for `x`:
a subsequent `get(x)` on the underlying cache reports `found = false`. -/
theorem cachingClient_no_caching_of_failures {E V : Type} (fp : PyStr → PyStr)
    (tr : PyStr → Except E V) (s : Db V) (x : PyStr) (e : E)
    (hmiss : dbGet? s.db (fp x) = none) (hraise : tr x = .error e) :
    (CachingClient.translate fp tr s x).result = .error e
    ∧ (CachingClient.translate fp tr s x).calls = [x]
    ∧ (Db.get fp (CachingClient.translate fp tr s x).cache x).1.1 = false := by
  rw [cc_translate_miss_err fp tr s x e hmiss hraise]
  refine ⟨rfl, rfl, ?_⟩
  have : (Db.get fp { s with misses := s.misses + 1 } x).1 = (false, none) :=
    db_get_fst_of_miss fp _ x hmiss
  rw [this]

/-- Witness for C7: empty cache, a translator that always raises `42`. -/
theorem cachingClient_no_caching_of_failures_witness :
    (CachingClient.translate (fun u => u) (fun _ => (Except.error 42 : Except Nat PyStr))
        (Db.init []) ['x']).result = .error 42
    ∧ (Db.get (fun u => u)
        (CachingClient.translate (fun u => u) (fun _ => (Except.error 42 : Except Nat PyStr))
          (Db.init []) ['x']).cache ['x']).1.1 = false := by
  have h := cachingClient_no_caching_of_failures (fun u => u)
    (fun _ => (Except.error 42 : Except Nat PyStr)) (Db.init []) ['x'] 42 rfl rfl
  exact ⟨h.1, h.2.2⟩

/-- C1 — the underlying cache class defines a `stats` method, but class
`CachingClient` does not: the delegating `stats()` the spec and the unit test
`TestCachingClient.test_hits_and_misses` rely on is absent from
`src/translation.py`, so calling it raises `AttributeError`. -/
theorem cachingClient_stats_method_missing :
    ("stats" ∈ Db.methodNames) ∧ ¬ ("stats" ∈ CachingClient.methodNames) := by
  decide

/-! ### `class Client` from `src/translation.py` -/

/-- One record of a translate response:
`dict(detectedSourceLanguage=…, model=…, translatedText=…)`. -/
structure TransRecord where
  detectedSourceLanguage : String
  model : String
  translatedText : PyStr
deriving DecidableEq

/-- Embeds `Client.__init__` state (the wrapped `translate.Client` network handle is
external and represented only by the `upstream` result below). -/
structure Client where
  source_language : String
  target_language : Option String
  format : String
  model : String
deriving DecidableEq

/-- Embeds `Client.MAX_LENGTH`. -/
def Client.MAX_LENGTH : Nat := 5000

/-- Argument of `Client.translate`: a Python list of strings or one string
(the `isinstance(values, list)` test). -/
inductive TranslateInput where
  | strs (l : List PyStr)
  | str (s : PyStr)
deriving DecidableEq

/-- Result of `Client.translate`: either the locally built no-op records, or
delegation to the external `self.client.translate` network call (which the
code passes the original `values`, not the chunked list). -/
inductive TranslateResult where
  | records (rs : List TransRecord)
  | upstream (values : TranslateInput)
deriving DecidableEq

/-- Embeds `Client.chunks`: `[values[i:i+MAX_LENGTH] for i in range(0, len(values), MAX_LENGTH)]`.
`range(0, n, step)` enumerates the ⌈n/step⌉ indices 0, step, 2·step, …, and
`values[i:i+MAX_LENGTH]` is `(values.drop i).take MAX_LENGTH`. -/
def Client.chunks (values : PyStr) : List PyStr :=
  (List.range' 0 ((values.length + (Client.MAX_LENGTH - 1)) / Client.MAX_LENGTH)
      Client.MAX_LENGTH).map
    fun i => (values.drop i).take Client.MAX_LENGTH

/-- Embeds `Client.translate` from `src/translation.py`. -/
def Client.translate (c : Client) (values : TranslateInput) : TranslateResult :=
  let strings_to_translate :=
    match values with
    | .strs l => l
    | .str s => Client.chunks s
  if c.source_language = "en" ∧ c.target_language = some c.source_language then
    .records (strings_to_translate.map fun v =>
      { detectedSourceLanguage := c.source_language, model := "nop", translatedText := v })
  else .upstream values

/-- Unfolding equation for `Client.chunks`: the comprehension over
`range(0, len, 5000)` slices off the first 5000 characters and recurses. -/
theorem chunks_eq (l : PyStr) :
    Client.chunks l = if l = [] then [] else l.take 5000 :: Client.chunks (l.drop 5000) := by
  by_cases h : l = []
  · subst h
    simp [Client.chunks, Client.MAX_LENGTH]
  · rw [if_neg h]
    have hlen : 1 ≤ l.length := by
      have : l.length ≠ 0 := by simpa [List.length_eq_zero] using h
      omega
    by_cases h5 : l.length ≤ 5000
    · have hn : (l.length + (Client.MAX_LENGTH - 1)) / Client.MAX_LENGTH = 1 := by
        simp only [Client.MAX_LENGTH]
        omega
      have hd : l.drop 5000 = [] := List.drop_eq_nil_of_le h5
      simp only [Client.chunks]
      rw [hn, List.range'_succ]
      simp [hd, Client.chunks, Client.MAX_LENGTH]
    · have hlen2 : (l.drop 5000).length = l.length - 5000 := List.length_drop 5000 l
      have hn : (l.length + (Client.MAX_LENGTH - 1)) / Client.MAX_LENGTH
          = ((l.drop 5000).length + (Client.MAX_LENGTH - 1)) / Client.MAX_LENGTH + 1 := by
        simp only [Client.MAX_LENGTH, hlen2]
        omega
      rw [Client.chunks, hn, List.range'_succ, List.map_cons]
      have hshift : List.range' (0 + Client.MAX_LENGTH)
          (((l.drop 5000).length + (Client.MAX_LENGTH - 1)) / Client.MAX_LENGTH)
          Client.MAX_LENGTH
          = (List.range' 0 (((l.drop 5000).length + (Client.MAX_LENGTH - 1)) / Client.MAX_LENGTH)
              Client.MAX_LENGTH).map (Client.MAX_LENGTH + ·) :=
        (List.map_add_range' Client.MAX_LENGTH 0 _ Client.MAX_LENGTH).symm
      rw [hshift, List.map_map]
      simp only [Client.MAX_LENGTH, List.drop_zero, Client.chunks]
      congr 1
      apply List.map_congr_left
      intro i _
      simp only [Function.comp]
      rw [List.drop_drop]

/-- Every chunk has at most `MAX_LENGTH` characters. -/
theorem chunks_length_le (l : PyStr) (ch : PyStr) (h : ch ∈ Client.chunks l) :
    ch.length ≤ 5000 := by
  unfold Client.chunks at h
  obtain ⟨i, _, rfl⟩ := List.mem_map.mp h
  simp only [List.length_take, Client.MAX_LENGTH]
  omega

/-- The chunks concatenate back to the input string. -/
theorem chunks_join (l : PyStr) : (Client.chunks l).flatten = l := by
  by_cases h : l = []
  · subst h
    rw [chunks_eq]
    simp
  · rw [chunks_eq, if_neg h]
    have hrec := chunks_join (l.drop 5000)
    simp [hrec, List.take_append_drop]
termination_by l.length
decreasing_by
  simp only [List.length_drop]
  have : l.length ≠ 0 := by simpa [List.length_eq_zero] using h
  omega

/-- C9 — with `source_language = 'en'` and `target_language = 'en'`,
`Client.translate` on a string input makes no upstream call: it returns the
no-op records over the chunks of the input (each at most `MAX_LENGTH = 5000`
characters, concatenating back to the input), with
`detectedSourceLanguage = 'en'` and `model = 'nop'`. -/
theorem client_translate_en_en_nop (c : Client) (s : PyStr)
    (h1 : c.source_language = "en") (h2 : c.target_language = some "en") :
    Client.translate c (.str s)
      = .records ((Client.chunks s).map fun v =>
          { detectedSourceLanguage := "en", model := "nop", translatedText := v })
    ∧ (∀ ch ∈ Client.chunks s, ch.length ≤ 5000)
    ∧ (Client.chunks s).flatten = s := by
  refine ⟨?_, fun ch hch => chunks_length_le s ch hch, chunks_join s⟩
  unfold Client.translate
  rw [if_pos ⟨h1, by rw [h2, h1]⟩]
  simp [h1]

/-- Witness for C9: the `'en' → 'en'` client applied to the string `"hi"`. -/
theorem client_translate_en_en_nop_witness :
    Client.translate ⟨"en", some "en", "text", "nmt"⟩ (.str ['h', 'i'])
      = .records ((Client.chunks ['h', 'i']).map fun v =>
          { detectedSourceLanguage := "en", model := "nop", translatedText := v }) :=
  (client_translate_en_en_nop ⟨"en", some "en", "text", "nmt"⟩ ['h', 'i'] rfl rfl).1

/-! ### `EngageNYChef._` from `src/engageny_chef.py` (the retry wrapper) -/

/-- Outcome of one `self.translation_client.translate(...)` call as seen by
the retry wrapper: a returned response (a list of records or a single
record), a raised `exceptions.Forbidden`, or any other raised error. -/
inductive UpstreamOutcome where
  | ok (resp : Sum (List TransRecord) TransRecord)
  | forbidden
  | transientError

/-- Extraction of the returned text:
`response[0]['translatedText']` for a list (an empty list raises
`IndexError`, modelled as `none`, which the bare `except:` then catches),
`response['translatedText']` otherwise. -/
def extractText : Sum (List TransRecord) TransRecord → Option PyStr
  | .inl [] => none
  | .inl (r :: _) => some r.translatedText
  | .inr r => some r.translatedText

/-- How the wrapper exited, mirroring the spec's retry state machine. -/
inductive RetryOutcome where
  | success
  | permanentFailure
  | exhaustedRetries
deriving DecidableEq

/-- Observable trace of one `EngageNYChef._(msg)` call: the returned text,
the number of upstream attempts, the durations of the `sleep` calls in
order, the texts passed to `translation_client.translate` in order, whether
the too-long warning was logged, and the exit mode. -/
structure RetryTrace where
  result : PyStr
  attempts : Nat
  sleeps : List Nat
  sent : List PyStr
  warnedLong : Bool
  outcome : RetryOutcome

/-- Embeds `max_tries = 4` from `EngageNYChef._`. -/
def max_tries : Nat := 4

/-- Embeds `sleep_period_secs = 100` from `EngageNYChef._`. -/
def sleep_period_secs : Nat := 100

/-- The `while try_ < max_tries:` loop of `EngageNYChef._`.  The upstream
client is a function of the attempt number (1-based) and the text sent; the
fuel argument only bounds the unfolding and is chosen large enough
(`max_tries`) that the loop guard, not the fuel, terminates the loop. -/
def retryLoop (client : Nat → PyStr → UpstreamOutcome) (msg msgT : PyStr) :
    Nat → Nat → RetryTrace
  | 0, _ => ⟨msg, 0, [], [], false, .exhaustedRetries⟩
  | fuel + 1, try_ =>
    if try_ < max_tries then
      match client try_ msgT with
      | .ok resp =>
        match extractText resp with
        | some t => ⟨t, 1, [], [msgT], false, .success⟩
        | none =>
          let rest := retryLoop client msg msgT fuel (try_ + 1)
          ⟨rest.result, rest.attempts + 1, sleep_period_secs :: rest.sleeps,
           msgT :: rest.sent, false, rest.outcome⟩
      | .forbidden => ⟨msg, 1, [], [msgT], false, .permanentFailure⟩
      | .transientError =>
        let rest := retryLoop client msg msgT fuel (try_ + 1)
        ⟨rest.result, rest.attempts + 1, sleep_period_secs :: rest.sleeps,
         msgT :: rest.sent, false, rest.outcome⟩
    else ⟨msg, 0, [], [], false, .exhaustedRetries⟩

/-- The truncation prologue of `EngageNYChef._`:
`msg[:4996] + " ..."` when `len(msg) >= 5000`, else `msg` itself. -/
def msgToTranslate (msg : PyStr) : PyStr :=
  if msg.length ≥ 5000 then msg.take 4996 ++ (' ' :: '.' :: '.' :: '.' :: []) else msg

/-- Embeds `EngageNYChef._(msg)`: truncate (logging the warning), then run the retry
loop starting at `try_ = 1`. -/
def retryTranslate (client : Nat → PyStr → UpstreamOutcome) (msg : PyStr) : RetryTrace :=
  let msgT := msgToTranslate msg
  let t := retryLoop client msg msgT max_tries 1
  { t with warnedLong := decide (msg.length ≥ 5000) }

theorem retryLoop_step_transient (client : Nat → PyStr → UpstreamOutcome)
    (msg msgT : PyStr) (fuel try_ : Nat)
    (hc : client try_ msgT = .transientError) (hlt : try_ < max_tries) :
    retryLoop client msg msgT (fuel + 1) try_
      = ⟨(retryLoop client msg msgT fuel (try_ + 1)).result,
         (retryLoop client msg msgT fuel (try_ + 1)).attempts + 1,
         sleep_period_secs :: (retryLoop client msg msgT fuel (try_ + 1)).sleeps,
         msgT :: (retryLoop client msg msgT fuel (try_ + 1)).sent,
         false,
         (retryLoop client msg msgT fuel (try_ + 1)).outcome⟩ := by
  simp [retryLoop, hc, hlt]

/-- One attempt that returns a response with an extractable text exits the
loop with `Success`. -/
theorem retryLoop_step_ok_some (client : Nat → PyStr → UpstreamOutcome)
    (msg msgT : PyStr) (fuel try_ : Nat) (resp : Sum (List TransRecord) TransRecord)
    (t : PyStr) (hc : client try_ msgT = .ok resp) (he : extractText resp = some t)
    (hlt : try_ < max_tries) :
    retryLoop client msg msgT (fuel + 1) try_ = ⟨t, 1, [], [msgT], false, .success⟩ := by
  simp [retryLoop, hc, he, hlt]

/-- A returned empty-list response (whose `response[0]` raises `IndexError`)
is caught by the bare `except:` and treated like a transient error. -/
theorem retryLoop_step_ok_none (client : Nat → PyStr → UpstreamOutcome)
    (msg msgT : PyStr) (fuel try_ : Nat) (resp : Sum (List TransRecord) TransRecord)
    (hc : client try_ msgT = .ok resp) (he : extractText resp = none)
    (hlt : try_ < max_tries) :
    retryLoop client msg msgT (fuel + 1) try_
      = ⟨(retryLoop client msg msgT fuel (try_ + 1)).result,
         (retryLoop client msg msgT fuel (try_ + 1)).attempts + 1,
         sleep_period_secs :: (retryLoop client msg msgT fuel (try_ + 1)).sleeps,
         msgT :: (retryLoop client msg msgT fuel (try_ + 1)).sent,
         false,
         (retryLoop client msg msgT fuel (try_ + 1)).outcome⟩ := by
  simp [retryLoop, hc, he, hlt]

theorem retryLoop_step_forbidden (client : Nat → PyStr → UpstreamOutcome)
    (msg msgT : PyStr) (fuel try_ : Nat)
    (hc : client try_ msgT = .forbidden) (hlt : try_ < max_tries) :
    retryLoop client msg msgT (fuel + 1) try_
      = ⟨msg, 1, [], [msgT], false, .permanentFailure⟩ := by
  simp [retryLoop, hc, hlt]

theorem retryLoop_step_stop (client : Nat → PyStr → UpstreamOutcome)
    (msg msgT : PyStr) (fuel try_ : Nat) (h : ¬ try_ < max_tries) :
    retryLoop client msg msgT (fuel + 1) try_
      = ⟨msg, 0, [], [], false, .exhaustedRetries⟩ := by
  simp [retryLoop, h]

/-- With an always-transient upstream, the loop makes three attempts and
three 100-second sleeps (one after each failed attempt, the last included),
then falls through the guard `try_ < max_tries` and returns `msg`. -/
theorem retryLoop_transient_run (client : Nat → PyStr → UpstreamOutcome)
    (msg msgT : PyStr) (h : ∀ n t, client n t = .transientError) :
    retryLoop client msg msgT max_tries 1
      = ⟨msg, 3, [sleep_period_secs, sleep_period_secs, sleep_period_secs],
         [msgT, msgT, msgT], false, .exhaustedRetries⟩ := by
  have e3 : retryLoop client msg msgT 1 3
      = ⟨msg, 1, [sleep_period_secs], [msgT], false, .exhaustedRetries⟩ := by
    rw [show retryLoop client msg msgT 1 3 = retryLoop client msg msgT (0 + 1) 3 from rfl,
      retryLoop_step_transient client msg msgT 0 3 (h 3 msgT) (by decide)]
    simp [retryLoop]
  have e2 : retryLoop client msg msgT 2 2
      = ⟨msg, 2, [sleep_period_secs, sleep_period_secs], [msgT, msgT], false,
         .exhaustedRetries⟩ := by
    rw [show retryLoop client msg msgT 2 2 = retryLoop client msg msgT (1 + 1) 2 from rfl,
      retryLoop_step_transient client msg msgT 1 2 (h 2 msgT) (by decide), e3]
  rw [show retryLoop client msg msgT max_tries 1 = retryLoop client msg msgT (2 + 1) 1 from rfl,
    retryLoop_step_transient client msg msgT 2 1 (h 1 msgT) (by decide), e2]

/-- With an upstream that raises `Forbidden` on the first attempt, the loop
makes one attempt, no sleep, and returns `msg` as `PermanentFailure`. -/
theorem retryLoop_forbidden_first (client : Nat → PyStr → UpstreamOutcome)
    (msg msgT : PyStr) (h : client 1 msgT = .forbidden) :
    retryLoop client msg msgT max_tries 1
      = ⟨msg, 1, [], [msgT], false, .permanentFailure⟩ := by
  rw [show retryLoop client msg msgT max_tries 1 = retryLoop client msg msgT (3 + 1) 1 from rfl]
  exact retryLoop_step_forbidden client msg msgT 3 1 h (by decide)

/-- Every text the loop passes upstream is the (possibly truncated) `msgT`. -/
theorem retryLoop_sent_all (client : Nat → PyStr → UpstreamOutcome)
    (msg msgT : PyStr) :
    ∀ (fuel try_ : Nat), ∀ x ∈ (retryLoop client msg msgT fuel try_).sent, x = msgT := by
  intro fuel
  induction fuel with
  | zero =>
    intro try_ x hx
    simp [retryLoop] at hx
  | succ fuel ih =>
    intro try_ x hx
    by_cases hlt : try_ < max_tries
    · cases hc : client try_ msgT with
      | ok resp =>
        cases he : extractText resp with
        | some t =>
          rw [retryLoop_step_ok_some client msg msgT fuel try_ resp t hc he hlt] at hx
          simpa using hx
        | none =>
          rw [retryLoop_step_ok_none client msg msgT fuel try_ resp hc he hlt] at hx
          simp only [List.mem_cons] at hx
          rcases hx with h1 | h1
          · exact h1
          · exact ih _ x h1
      | forbidden =>
        rw [retryLoop_step_forbidden client msg msgT fuel try_ hc hlt] at hx
        simpa using hx
      | transientError =>
        rw [retryLoop_step_transient client msg msgT fuel try_ hc hlt] at hx
        simp only [List.mem_cons] at hx
        rcases hx with h1 | h1
        · exact h1
        · exact ih _ x h1
    · rw [retryLoop_step_stop client msg msgT fuel try_ hlt] at hx
      simp at hx

/-- On every non-success exit the loop returns the original `msg`. -/
theorem retryLoop_degraded (client : Nat → PyStr → UpstreamOutcome)
    (msg msgT : PyStr) :
    ∀ (fuel try_ : Nat), (retryLoop client msg msgT fuel try_).outcome ≠ .success →
      (retryLoop client msg msgT fuel try_).result = msg := by
  intro fuel
  induction fuel with
  | zero =>
    intro try_ _
    simp [retryLoop]
  | succ fuel ih =>
    intro try_ hout
    by_cases hlt : try_ < max_tries
    · cases hc : client try_ msgT with
      | ok resp =>
        cases he : extractText resp with
        | some t =>
          rw [retryLoop_step_ok_some client msg msgT fuel try_ resp t hc he hlt] at hout
          simp at hout
        | none =>
          rw [retryLoop_step_ok_none client msg msgT fuel try_ resp hc he hlt] at hout ⊢
          exact ih _ hout
      | forbidden =>
        rw [retryLoop_step_forbidden client msg msgT fuel try_ hc hlt]
      | transientError =>
        rw [retryLoop_step_transient client msg msgT fuel try_ hc hlt] at hout ⊢
        exact ih _ hout
    · rw [retryLoop_step_stop client msg msgT fuel try_ hlt]

theorem msgToTranslate_length_le (msg : PyStr) : (msgToTranslate msg).length ≤ 5000 := by
  unfold msgToTranslate
  by_cases h : msg.length ≥ 5000
  · rw [if_pos h]
    simp [List.length_append, List.length_take]
  · rw [if_neg h]
    omega

theorem msgToTranslate_length_of_ge (msg : PyStr) (h : 5000 ≤ msg.length) :
    (msgToTranslate msg).length = 5000 := by
  unfold msgToTranslate
  rw [if_pos h]
  simp [List.length_append, List.length_take]
  omega

theorem retryTranslate_transient_run (client : Nat → PyStr → UpstreamOutcome)
    (msg : PyStr) (h : ∀ n t, client n t = .transientError) :
    retryTranslate client msg
      = ⟨msg, 3, [sleep_period_secs, sleep_period_secs, sleep_period_secs],
         [msgToTranslate msg, msgToTranslate msg, msgToTranslate msg],
         decide (msg.length ≥ 5000), .exhaustedRetries⟩ := by
  simp only [retryTranslate]
  rw [retryLoop_transient_run client msg (msgToTranslate msg) h]

theorem retryTranslate_forbidden_run (client : Nat → PyStr → UpstreamOutcome)
    (msg : PyStr) (h : ∀ t, client 1 t = .forbidden) :
    retryTranslate client msg
      = ⟨msg, 1, [], [msgToTranslate msg], decide (msg.length ≥ 5000),
         .permanentFailure⟩ := by
  simp only [retryTranslate]
  rw [retryLoop_forbidden_first client msg (msgToTranslate msg) (h _)]

/-- C3 — if the upstream raises the permanent `Forbidden` error on the first
attempt, `EngageNYChef._` makes exactly one upstream attempt, no backoff
sleep, and returns the original untranslated message. -/
theorem retry_forbidden_short_circuit (client : Nat → PyStr → UpstreamOutcome)
    (msg : PyStr) (h : ∀ t, client 1 t = .forbidden) :
    (retryTranslate client msg).attempts = 1
    ∧ (retryTranslate client msg).sleeps = []
    ∧ (retryTranslate client msg).result = msg
    ∧ (retryTranslate client msg).outcome = .permanentFailure := by
  rw [retryTranslate_forbidden_run client msg h]
  exact ⟨rfl, rfl, rfl, rfl⟩

/-- Witness for C3: a stub that always raises `Forbidden`, message `"hi"`. -/
theorem retry_forbidden_short_circuit_witness :
    (retryTranslate (fun _ _ => UpstreamOutcome.forbidden) ['h', 'i']).attempts = 1
    ∧ (retryTranslate (fun _ _ => UpstreamOutcome.forbidden) ['h', 'i']).sleeps = []
    ∧ (retryTranslate (fun _ _ => UpstreamOutcome.forbidden) ['h', 'i']).result = ['h', 'i'] := by
  have h := retry_forbidden_short_circuit (fun _ _ => UpstreamOutcome.forbidden) ['h', 'i']
    (fun _ => rfl)
  exact ⟨h.1, h.2.1, h.2.2.1⟩

/-- C2 — evaluation at the claim's failing input: with a stub whose
`translate` always raises a transient error, one `EngageNYChef._` call makes
3 upstream attempts, not `max_tries = 4`, and performs 3 sleeps of 100
seconds (the third after the final attempt, not between attempts): the loop
`while try_ < max_tries` with `try_` starting at 1 runs its body only for
`try_ = 1, 2, 3`. -/
theorem retry_transient_three_attempts :
    (retryTranslate (fun _ _ => UpstreamOutcome.transientError) ['h', 'i']).attempts = 3
    ∧ (retryTranslate (fun _ _ => UpstreamOutcome.transientError) ['h', 'i']).sleeps
        = [100, 100, 100]
    ∧ (retryTranslate (fun _ _ => UpstreamOutcome.transientError) ['h', 'i']).result
        = ['h', 'i']
    ∧ (retryTranslate (fun _ _ => UpstreamOutcome.transientError) ['h', 'i']).attempts
        ≠ max_tries := by
  refine ⟨?_, ?_, ?_, ?_⟩ <;> decide

/-- C8 — every text `EngageNYChef._` passes to
`translation_client.translate` has at most 5000 characters; an input longer
than the limit is truncated to its first 4996 characters plus `" ..."`
before any upstream call, with the warning logged. -/
theorem retry_never_sends_oversized (client : Nat → PyStr → UpstreamOutcome)
    (msg : PyStr) :
    (∀ x ∈ (retryTranslate client msg).sent, x.length ≤ 5000)
    ∧ (5000 < msg.length →
        (retryTranslate client msg).warnedLong = true
        ∧ ∀ x ∈ (retryTranslate client msg).sent,
            x = msg.take 4996 ++ (' ' :: '.' :: '.' :: '.' :: [])) := by
  have hsent : ∀ x ∈ (retryTranslate client msg).sent, x = msgToTranslate msg := by
    intro x hx
    exact retryLoop_sent_all client msg (msgToTranslate msg) max_tries 1 x
      (by simpa [retryTranslate] using hx)
  constructor
  · intro x hx
    rw [hsent x hx]
    exact msgToTranslate_length_le msg
  · intro hgt
    constructor
    · simp only [retryTranslate]
      simp only [decide_eq_true_eq]
      omega
    · intro x hx
      rw [hsent x hx]
      unfold msgToTranslate
      rw [if_pos (by omega)]

/-- Witness for C8 at a 5001-character message and a `Forbidden` stub. -/
theorem retry_never_sends_oversized_witness :
    (∀ x ∈ (retryTranslate (fun _ _ => UpstreamOutcome.forbidden)
        (List.replicate 5001 'a')).sent, x.length ≤ 5000)
    ∧ (retryTranslate (fun _ _ => UpstreamOutcome.forbidden)
        (List.replicate 5001 'a')).warnedLong = true := by
  have h := retry_never_sends_oversized (fun _ _ => UpstreamOutcome.forbidden)
    (List.replicate 5001 'a')
  refine ⟨h.1, (h.2 ?_).1⟩
  rw [List.length_replicate]
  omega

/-- C10 (amended) — on both degraded exits (permanent failure and exhausted
retries) `EngageNYChef._` returns the original full `msg`, not the truncated
`msg_to_translate`; hence for every input of more than 5000 characters the
degraded return value differs from — and is longer than — the text sent
upstream. -/
theorem retry_degraded_returns_original (client : Nat → PyStr → UpstreamOutcome)
    (msg : PyStr)
    (hdeg : (retryTranslate client msg).outcome ≠ RetryOutcome.success) :
    (retryTranslate client msg).result = msg
    ∧ (5000 < msg.length →
        (retryTranslate client msg).result ≠ msgToTranslate msg
        ∧ (msgToTranslate msg).length < (retryTranslate client msg).result.length) := by
  have hout : (retryLoop client msg (msgToTranslate msg) max_tries 1).outcome
      ≠ RetryOutcome.success := by
    simpa [retryTranslate] using hdeg
  have hres : (retryTranslate client msg).result = msg := by
    have := retryLoop_degraded client msg (msgToTranslate msg) max_tries 1 hout
    simpa [retryTranslate] using this
  refine ⟨hres, fun hgt => ?_⟩
  have hlen : (msgToTranslate msg).length = 5000 := msgToTranslate_length_of_ge msg (by omega)
  rw [hres]
  constructor
  · intro hEq
    have hl := congrArg List.length hEq
    rw [hlen] at hl
    omega
  · rw [hlen]
    omega

/-- Witness for C10's amended claim at a 5001-character message and an
always-transient stub. -/
theorem retry_degraded_returns_original_witness :
    (retryTranslate (fun _ _ => UpstreamOutcome.transientError)
        (List.replicate 5001 'a')).result = List.replicate 5001 'a'
    ∧ (retryTranslate (fun _ _ => UpstreamOutcome.transientError)
        (List.replicate 5001 'a')).result
      ≠ msgToTranslate (List.replicate 5001 'a') := by
  have hdeg : (retryTranslate (fun _ _ => UpstreamOutcome.transientError)
      (List.replicate 5001 'a')).outcome ≠ RetryOutcome.success := by
    rw [retryTranslate_transient_run _ _ (fun _ _ => rfl)]
    simp
  have h := retry_degraded_returns_original (fun _ _ => UpstreamOutcome.transientError)
    (List.replicate 5001 'a') hdeg
  exact ⟨h.1, (h.2 (by rw [List.length_replicate]; omega)).1⟩

/-- The 5000-character message whose last four characters are `" ..."`: on it
the truncation is the identity. -/
def c10msg : PyStr := List.replicate 4996 'a' ++ (' ' :: '.' :: '.' :: '.' :: [])

/-- Counterexample to C10 as stated ("length at least 5000"): for the
5000-character message `c10msg` the degraded run returns exactly the text
that was sent upstream — the return value neither differs from it nor is
longer. -/
theorem retry_degraded_equals_sent_counterexample :
    5000 ≤ c10msg.length
    ∧ (retryTranslate (fun _ _ => UpstreamOutcome.transientError) c10msg).outcome
        ≠ RetryOutcome.success
    ∧ (retryTranslate (fun _ _ => UpstreamOutcome.transientError) c10msg).sent
        = [msgToTranslate c10msg, msgToTranslate c10msg, msgToTranslate c10msg]
    ∧ (retryTranslate (fun _ _ => UpstreamOutcome.transientError) c10msg).result
        = msgToTranslate c10msg
    ∧ ¬ ((msgToTranslate c10msg).length
          < (retryTranslate (fun _ _ => UpstreamOutcome.transientError) c10msg).result.length) := by
  have hlen : c10msg.length = 5000 := by
    unfold c10msg
    rw [List.length_append, List.length_replicate]
    decide
  have htr : msgToTranslate c10msg = c10msg := by
    unfold msgToTranslate
    rw [if_pos (by omega)]
    unfold c10msg
    rw [List.take_left' (List.length_replicate 4996 'a')]
  have hrun := retryTranslate_transient_run (fun _ _ => UpstreamOutcome.transientError)
    c10msg (fun _ _ => rfl)
  rw [hrun]
  refine ⟨by omega, by simp, rfl, htr.symm, ?_⟩
  rw [htr]
  simp
